import Mathlib

/-!
Shallow embedding of the fastcache TTL-and-capacity cache (src/lib.rs).

Instants and durations are modelled as natural numbers and the wall clock is
passed explicitly to each operation. The concurrent structures are modelled
sequentially: the DashMap as a function map, the crossbeam ArrayQueue as a
capacity-bounded list with the front at the head, and the AtomicBool flag and
AtomicCell hint as plain record fields. compare_exchange_weak is modelled as
succeeding exactly when the flag is clear, which is its behaviour in any
single-threaded execution. Rust panics are modelled as Option.none.
-/

namespace Fastcache

/-- Embeds `struct Value<V>` from src/lib.rs: a by-value snapshot of a cache
entry, carrying the payload, its expiration instant and the expired flag. -/
structure Value (V : Type) where
  value : V
  expire_at : Nat
  is_expired : Bool
deriving DecidableEq

/-- Embeds `Value::get`: read-only access to the payload. -/
def Value.get {V : Type} (x : Value V) : V := x.value

/-- Embeds writing through `Value::get_mut` (or `DerefMut`): the wrapper is a
detached value, so mutation produces a new wrapper and touches nothing else. -/
def Value.getMutSet {V : Type} (x : Value V) (v : V) : Value V :=
  { x with value := v }

/-- Embeds `Value::into_inner`: consuming access yielding the payload. -/
def Value.intoInner {V : Type} (x : Value V) : V := x.value

/-- Embeds `Value::is_expired`. -/
def Value.isExpired {V : Type} (x : Value V) : Bool := x.is_expired

/-- Embeds `Value::expire_at`. -/
def Value.expireAt {V : Type} (x : Value V) : Nat := x.expire_at

/-- Embeds `struct Cache<K, V>` from src/lib.rs. `map` models the DashMap,
`ringbuf` the ArrayQueue (front of the queue at the head of the list),
`expire_started` the AtomicBool and `oldest` the AtomicCell hint. -/
structure Cache (K V : Type) where
  map : K → Option (V × Nat)
  ringbuf : List (K × Nat)
  capacity : Nat
  ttl : Nat
  expire_started : Bool
  oldest : Nat

variable {K V : Type} [DecidableEq K]

/-- Embeds `DashMap::insert`: overwrite the entry for a key. -/
def mapInsert (m : K → Option (V × Nat)) (k : K) (v : V) (t : Nat) :
    K → Option (V × Nat) :=
  fun k2 => if k2 = k then some (v, t) else m k2

/-- Embeds `DashMap::remove`. -/
def mapRemove (m : K → Option (V × Nat)) (k : K) : K → Option (V × Nat) :=
  fun k2 => if k2 = k then none else m k2

/-- Embeds the sweep loop of `Cache::do_expire` (src/lib.rs lines 182-189),
run after the compare-and-swap has been won: pop ring records from the front,
remove each popped key from the map, and stop (storing the popped instant as
the new hint) as soon as `now <= t`. Returns the new ring, map and hint. -/
def sweepLoop (now : Nat) :
    List (K × Nat) → (K → Option (V × Nat)) → Nat →
    List (K × Nat) × (K → Option (V × Nat)) × Nat
  | [], m, old => ([], m, old)
  | (k, t) :: rest, m, old =>
    let m2 := mapRemove m k
    if now ≤ t then (rest, m2, t)
    else sweepLoop now rest m2 old

/-- Embeds `Cache::do_expire` (src/lib.rs lines 167-191): skip when the hint
is in the future, skip when the flag is already taken, otherwise sweep and
release the flag. -/
def Cache.doExpire (s : Cache K V) (now : Nat) : Cache K V :=
  if s.oldest > now then s
  else if s.expire_started then s
  else
    let r := sweepLoop now s.ringbuf s.map s.oldest
    { s with ringbuf := r.1, map := r.2.1, oldest := r.2.2,
             expire_started := false }

/-- Embeds `Cache::get` (src/lib.rs lines 134-148): absent keys return
immediately; present keys produce a snapshot and then run `do_expire`.
Returns the result together with the post-call cache state. -/
def Cache.get (s : Cache K V) (key : K) (now : Nat) :
    Option (Value V) × Cache K V :=
  match s.map key with
  | none => (none, s)
  | some v =>
    (some { value := v.1, expire_at := v.2, is_expired := decide (now > v.2) },
     s.doExpire now)

/-- Embeds the `while let Err(_) = self.ringbuf.push(..)` eviction loop of
`Cache::insert` (src/lib.rs lines 156-161). A push onto the ArrayQueue fails
exactly when the ring holds `cap` records; on failure the front record is
popped, its key removed from the map and the hint set to its instant, then the
push is retried. The `pop().unwrap()` panic (pop from an empty ring, possible
only when `cap = 0`) is modelled as `none`. -/
def evictLoop (cap : Nat) (k : K) (t : Nat) :
    List (K × Nat) → (K → Option (V × Nat)) → Nat →
    Option (List (K × Nat) × (K → Option (V × Nat)) × Nat)
  | [], m, old =>
    if 0 < cap then some ([(k, t)], m, old) else none
  | (k0, t0) :: rest, m, old =>
    if rest.length + 1 < cap then some ((k0, t0) :: rest ++ [(k, t)], m, old)
    else evictLoop cap k t rest (mapRemove m k0) t0

/-- Embeds `Cache::insert` (src/lib.rs lines 153-164): compute
`expire_at = now + ttl`, run the eviction loop until the ring push succeeds,
write the entry to the map, then run `do_expire`. -/
def Cache.insert (s : Cache K V) (key : K) (value : V) (now : Nat) :
    Option (Cache K V) :=
  let expire_at := now + s.ttl
  match evictLoop s.capacity key expire_at s.ringbuf s.map s.oldest with
  | none => none
  | some r =>
    some (Cache.doExpire
      { s with ringbuf := r.1, map := mapInsert r.2.1 key value expire_at,
               oldest := r.2.2 } now)

/-- Embeds `Cache::len`: the length of the ring. -/
def Cache.len (s : Cache K V) : Nat := s.ringbuf.length

/-- Embeds `Cache::new` (src/lib.rs lines 112-121). The ring is built by
`crossbeam_queue::ArrayQueue::new(capacity)`, which panics when the capacity
is zero ("capacity must be non-zero"); that panic is modelled as `none`.
The hint starts at the construction instant `now`. -/
def Cache.new (capacity : Nat) (ttl : Nat) (now : Nat) :
    Option (Cache K V) :=
  if capacity = 0 then none
  else some { map := fun _ => none, ringbuf := [], capacity := capacity,
              ttl := ttl, expire_started := false, oldest := now }

/-- One public operation of the facade, with the call instant attached. -/
inductive Op (K V : Type) where
  | ins : K → V → Nat → Op K V
  | lookup : K → Nat → Op K V
  | length : Op K V
  | getCapacity : Op K V

/-- Runs one operation, returning the post-call state (`len` and `capacity`
read through `&self` and leave the state unchanged). -/
def runOp (s : Cache K V) : Op K V → Option (Cache K V)
  | Op.ins k v now => s.insert k v now
  | Op.lookup k now => some (s.get k now).2
  | Op.length => some s
  | Op.getCapacity => some s

/-- Runs a sequence of operations from a state. -/
def run (s : Cache K V) : List (Op K V) → Option (Cache K V)
  | [] => some s
  | op :: ops =>
    match runOp s op with
    | none => none
    | some s2 => run s2 ops

/-- Removing a list of keys in order, as the sweep loop does. -/
def removeKeys (ks : List K) (m : K → Option (V × Nat)) :
    K → Option (V × Nat) :=
  ks.foldl mapRemove m

/-- The sweep never lengthens the ring. -/
lemma sweepLoop_length_le (now : Nat) :
    ∀ (rb : List (K × Nat)) (m : K → Option (V × Nat)) (old : Nat),
      (sweepLoop now rb m old).1.length ≤ rb.length := by
  intro rb
  induction rb with
  | nil => intro m old; simp [sweepLoop]
  | cons p rest ih =>
    intro m old
    obtain ⟨k, t⟩ := p
    simp only [sweepLoop]
    split
    · simp
    · exact Nat.le_succ_of_le (ih _ _)

/-- The sweep only removes map entries: afterwards each key is either
unchanged or gone. -/
lemma sweepLoop_map_cases (now : Nat) :
    ∀ (rb : List (K × Nat)) (m : K → Option (V × Nat)) (old : Nat) (k : K),
      (sweepLoop now rb m old).2.1 k = m k ∨
      (sweepLoop now rb m old).2.1 k = none := by
  intro rb
  induction rb with
  | nil => intro m old k; left; rfl
  | cons p rest ih =>
    intro m old k
    obtain ⟨k0, t0⟩ := p
    simp only [sweepLoop]
    split
    · by_cases hk : k = k0
      · right; simp [mapRemove, hk]
      · left; simp [mapRemove, hk]
    · rcases ih (mapRemove m k0) old k with h | h
      · by_cases hk : k = k0
        · right; rw [h]; simp [mapRemove, hk]
        · left; rw [h]; simp [mapRemove, hk]
      · right; exact h

/-- If the hint is in the future, do_expire is a no-op. -/
lemma doExpire_skip (s : Cache K V) (now : Nat) (h : now < s.oldest) :
    s.doExpire now = s := by
  simp [Cache.doExpire, h]

/-- do_expire leaves capacity and ttl unchanged and never lengthens the
ring, and releases the sweep flag whenever it acquired it. -/
lemma doExpire_frame (s : Cache K V) (now : Nat) :
    (s.doExpire now).capacity = s.capacity ∧
    (s.doExpire now).ttl = s.ttl ∧
    (s.doExpire now).ringbuf.length ≤ s.ringbuf.length := by
  unfold Cache.doExpire
  split
  · exact ⟨rfl, rfl, Nat.le_refl _⟩
  · split
    · exact ⟨rfl, rfl, Nat.le_refl _⟩
    · exact ⟨rfl, rfl, sweepLoop_length_le now s.ringbuf s.map s.oldest⟩

/-- do_expire only removes map entries. -/
lemma doExpire_map_cases (s : Cache K V) (now : Nat) (k : K) :
    (s.doExpire now).map k = s.map k ∨ (s.doExpire now).map k = none := by
  unfold Cache.doExpire
  split
  · left; rfl
  · split
    · left; rfl
    · exact sweepLoop_map_cases now s.ringbuf s.map s.oldest k

/-- When the ring has room, the eviction loop pushes at the back on the
first attempt and changes nothing else. -/
lemma evictLoop_push (cap : Nat) (k : K) (t : Nat) (rb : List (K × Nat))
    (m : K → Option (V × Nat)) (old : Nat) (h : rb.length < cap) :
    evictLoop cap k t rb m old = some (rb ++ [(k, t)], m, old) := by
  cases rb with
  | nil => simp only [evictLoop]; simp at h; simp [h]
  | cons p rest =>
    obtain ⟨k0, t0⟩ := p
    simp only [evictLoop]
    simp only [List.length_cons] at h
    simp [h]

/-- With a positive capacity the eviction loop always terminates with a
successful push: the pop after a failed push never hits an empty ring. -/
lemma evictLoop_isSome (cap : Nat) (k : K) (t : Nat) (hcap : 0 < cap) :
    ∀ (rb : List (K × Nat)) (m : K → Option (V × Nat)) (old : Nat),
      (evictLoop cap k t rb m old).isSome := by
  intro rb
  induction rb with
  | nil => intro m old; simp [evictLoop, hcap]
  | cons p rest ih =>
    intro m old
    obtain ⟨k0, t0⟩ := p
    simp only [evictLoop]
    split
    · rfl
    · exact ih _ _

/-- The eviction loop keeps the ring within capacity. -/
lemma evictLoop_length (cap : Nat) (k : K) (t : Nat) :
    ∀ (rb : List (K × Nat)) (m : K → Option (V × Nat)) (old : Nat)
      (hle : rb.length ≤ cap) (r : List (K × Nat) × (K → Option (V × Nat)) × Nat)
      (hr : evictLoop cap k t rb m old = some r),
      r.1.length ≤ cap := by
  intro rb
  induction rb with
  | nil =>
    intro m old hle r hr
    simp only [evictLoop] at hr
    split at hr
    · cases hr; simpa
    · cases hr
  | cons p rest ih =>
    intro m old hle r hr
    obtain ⟨k0, t0⟩ := p
    simp only [evictLoop] at hr
    split at hr
    · cases hr
      simp only [List.length_append, List.length_cons, List.length_nil]
      omega
    · exact ih _ _ (by simp at hle; omega) r hr

/-- insert never panics and preserves the length invariant when the
capacity is positive. -/
lemma insert_inv (s : Cache K V) (k : K) (v : V) (now : Nat)
    (hcap : 0 < s.capacity) (hlen : s.ringbuf.length ≤ s.capacity) :
    ∃ s2, s.insert k v now = some s2 ∧ s2.capacity = s.capacity ∧
      s2.ringbuf.length ≤ s2.capacity := by
  have hs := evictLoop_isSome s.capacity k (now + s.ttl) hcap s.ringbuf s.map s.oldest
  obtain ⟨r, hr⟩ := Option.isSome_iff_exists.mp hs
  have hrl := evictLoop_length s.capacity k (now + s.ttl) s.ringbuf s.map s.oldest hlen r hr
  refine ⟨Cache.doExpire
    { s with ringbuf := r.1, map := mapInsert r.2.1 k v (now + s.ttl),
             oldest := r.2.2 } now, ?_, ?_, ?_⟩
  · simp only [Cache.insert, hr]
  · exact (doExpire_frame _ now).1
  · have h1 := (doExpire_frame
      ({ s with ringbuf := r.1, map := mapInsert r.2.1 k v (now + s.ttl),
                oldest := r.2.2 } : Cache K V) now).1
    have h3 := (doExpire_frame
      ({ s with ringbuf := r.1, map := mapInsert r.2.1 k v (now + s.ttl),
                oldest := r.2.2 } : Cache K V) now).2.2
    rw [h1]
    exact le_trans h3 hrl

/-- get leaves the state alone on an absent key and otherwise only runs
do_expire, so it preserves capacity and the length invariant. -/
lemma get_state_cases (s : Cache K V) (k : K) (now : Nat) :
    (s.get k now).2 = s ∨ (s.get k now).2 = s.doExpire now := by
  unfold Cache.get
  cases s.map k with
  | none => left; rfl
  | some v => right; rfl

/-- C1: the claim fails on the code. On a fresh cache (capacity 3, ttl 10,
built at instant 0) a single insert of key 0 with value 5 at instant 0,
followed immediately by get of key 0 at the same instant, returns absent:
the insert's own do_expire sweeps (the hint equals the construction instant,
which is not in the future), pops the just-pushed record and removes the key
from the map. The claim says the get must return the value, present and not
expired. -/
theorem C1_counterexample :
    ((Cache.new 3 10 0 : Option (Cache Nat Nat)).bind fun s =>
      s.insert 0 5 0).map (fun s1 => (s1.get 0 0).1) = some none := by
  decide

/-- C1 (amended): insert(k, v) immediately followed by get(k) returns a
present result with payload v, expiration instant now + ttl and expired flag
false, provided ttl > 0, no time elapses, the Arrival Ring is not full, and
the cached hint is strictly in the future at the call instant (so the
opportunistic sweep is skipped). -/
theorem C1_insert_get (s : Cache K V) (k : K) (v : V) (now : Nat)
    (httl : 0 < s.ttl) (hhint : now < s.oldest)
    (hroom : s.ringbuf.length < s.capacity) :
    ∃ s2, s.insert k v now = some s2 ∧
      (s2.get k now).1 =
        some { value := v, expire_at := now + s.ttl, is_expired := false } := by
  have he := evictLoop_push s.capacity k (now + s.ttl) s.ringbuf s.map s.oldest hroom
  refine ⟨Cache.doExpire
    { s with ringbuf := s.ringbuf ++ [(k, now + s.ttl)],
             map := mapInsert s.map k v (now + s.ttl),
             oldest := s.oldest } now, ?_, ?_⟩
  · simp only [Cache.insert, he]
  · have hskip : Cache.doExpire
        { s with ringbuf := s.ringbuf ++ [(k, now + s.ttl)],
                 map := mapInsert s.map k v (now + s.ttl),
                 oldest := s.oldest } now =
        { s with ringbuf := s.ringbuf ++ [(k, now + s.ttl)],
                 map := mapInsert s.map k v (now + s.ttl),
                 oldest := s.oldest } :=
      doExpire_skip _ now hhint
    rw [hskip]
    simp only [Cache.get, mapInsert, if_pos rfl]
    have hne : ¬ now > now + s.ttl := by omega
    simp [hne]

/-- Witness for C1_insert_get at a concrete state: capacity 3, ttl 10, empty
ring, hint 5, insert key 0 with value 7 at instant 0. -/
theorem C1_witness :
    (0:Nat) < 10 ∧ (0:Nat) < 5 ∧ (0:Nat) < 3 ∧
    ∃ s2, Cache.insert
      { map := fun _ => none, ringbuf := [], capacity := 3, ttl := 10,
        expire_started := false, oldest := 5 } 0 7 0 = some s2 ∧
      (s2.get 0 0).1 = some { value := 7, expire_at := 10, is_expired := false } :=
  ⟨by decide, by decide, by decide,
    C1_insert_get
      { map := fun _ => none, ringbuf := [], capacity := 3, ttl := 10,
        expire_started := false, oldest := 5 } 0 7 0
      (by decide) (by decide) (by decide)⟩

/-- Inserting through an optional cache state, as the scenario chains do. -/
def scenarioInsert (o : Option (Cache Nat Nat)) (k v now : Nat) :
    Option (Cache Nat Nat) :=
  o.bind fun s => s.insert k v now

/-- The C3 scenario prefix: capacity 3, ttl 3600, construction at 0, then
the three inserts (keys 0, 1, 2 standing for "a", "b", "c"). -/
def scenarioAbc : Option (Cache Nat Nat) :=
  scenarioInsert (scenarioInsert (scenarioInsert (Cache.new 3 3600 0) 0 1 0)
    1 2 0) 2 3 0

/-- The C3 scenario after the fourth insert (key 3 standing for "d"). -/
def scenarioAbcd : Option (Cache Nat Nat) :=
  scenarioInsert scenarioAbc 3 4 0

/-- C3: the claim fails on the code. After inserting the three keys into the
fresh capacity-3 cache, len() is 2, not 3: the first insert's own do_expire
sweeps the just-pushed record away, because the hint starts at the
construction instant. -/
theorem C3_counterexample :
    scenarioAbc.map Cache.len = some 2 ∧
    scenarioAbc.map Cache.len ≠ some 3 := by
  decide

/-- C3 (amended): in the scenario, inserting "a", "b", "c" yields len() == 2
(the first insert is immediately retired by the opportunistic sweep); then
inserting "d" yields get("a") absent, get("d") present with the inserted
value 4 (not expired, stamped 3600), and len() == 3. -/
theorem C3_scenario :
    scenarioAbc.map Cache.len = some 2 ∧
    scenarioAbcd.map Cache.len = some 3 ∧
    scenarioAbcd.map (fun s => (s.get 0 0).1) = some none ∧
    scenarioAbcd.map (fun s => (s.get 3 0).1) =
      some (some { value := 4, expire_at := 3600, is_expired := false }) := by
  decide

/-- C2: the claim fails on the code at the boundary instant. With sweep start
time 5 and ring [(1, 5), (2, 3)], no popped instant is strictly in the future
(5 is not greater than 5), so the claim requires the ring to be exhausted
with no hint update (hint stays 7). The code instead stops at the first
record because its instant 5 satisfies now <= t: the second record (2, 3)
stays in the ring and the hint becomes 5. -/
theorem C2_counterexample :
    (sweepLoop 5 [(1, 5), (2, 3)] (fun _ => (none : Option (Nat × Nat))) 7).1
      = [(2, 3)] ∧
    (sweepLoop 5 [(1, 5), (2, 3)] (fun _ => (none : Option (Nat × Nat))) 7).2.2
      = 5 ∧
    ¬ (5:Nat) < 5 := by
  decide

/-- C2 (amended): once the sweep's compare-and-swap is won (the flag is clear
and the hint is not in the future), do_expire runs the sweep loop and
releases the flag. The sweep pops the front of the ring; every popped key is
removed from the map regardless of whether its instant has passed; it stops at
the first record whose instant has not yet passed (sweep start time <= t,
rather than strictly in the future), storing that instant as the new hint and
not pushing the record back; if every record's instant has passed, the ring
is exhausted and the hint is left unchanged. -/
theorem C2_sweep (now : Nat) :
    (∀ (s : Cache K V), s.expire_started = false → s.oldest ≤ now →
       s.doExpire now =
         { s with
             ringbuf := (sweepLoop now s.ringbuf s.map s.oldest).1,
             map := (sweepLoop now s.ringbuf s.map s.oldest).2.1,
             oldest := (sweepLoop now s.ringbuf s.map s.oldest).2.2,
             expire_started := false }) ∧
    (∀ (pre : List (K × Nat)) (k : K) (t : Nat) (rest : List (K × Nat))
       (m : K → Option (V × Nat)) (old : Nat),
       (∀ p ∈ pre, p.2 < now) → now ≤ t →
       sweepLoop now (pre ++ (k, t) :: rest) m old =
         (rest, removeKeys (pre.map Prod.fst ++ [k]) m, t)) ∧
    (∀ (rb : List (K × Nat)) (m : K → Option (V × Nat)) (old : Nat),
       (∀ p ∈ rb, p.2 < now) →
       sweepLoop now rb m old = ([], removeKeys (rb.map Prod.fst) m, old)) := by
  refine ⟨?_, ?_, ?_⟩
  · intro s hflag hle
    unfold Cache.doExpire
    rw [if_neg (Nat.not_lt.mpr hle), hflag, if_neg (by simp)]
  · intro pre
    induction pre with
    | nil =>
      intro k t rest m old hpre ht
      simp [sweepLoop, ht, removeKeys]
    | cons p pre2 ih =>
      intro k t rest m old hpre ht
      obtain ⟨k0, t0⟩ := p
      have h0 : t0 < now := hpre (k0, t0) (List.mem_cons_self _ _)
      have hno : ¬ now ≤ t0 := Nat.not_le.mpr h0
      simp only [List.cons_append, sweepLoop, hno, if_false]
      rw [show pre2.append ((k, t) :: rest) = pre2 ++ (k, t) :: rest from rfl]
      rw [ih k t rest (mapRemove m k0) old
        (fun p hp => hpre p (List.mem_cons_of_mem _ hp)) ht]
      simp [removeKeys]
  · intro rb
    induction rb with
    | nil => intro m old hrb; simp [sweepLoop, removeKeys]
    | cons p rest ih =>
      intro m old hrb
      obtain ⟨k0, t0⟩ := p
      have h0 : t0 < now := hrb (k0, t0) (List.mem_cons_self _ _)
      have hno : ¬ now ≤ t0 := Nat.not_le.mpr h0
      simp only [sweepLoop, hno, if_false]
      rw [ih (mapRemove m k0) old (fun p hp => hrb p (List.mem_cons_of_mem _ hp))]
      simp [removeKeys]

/-- Concrete state used by the C2 witness: flag clear, hint 0 in the past. -/
def sweepState : Cache Nat Nat :=
  { map := fun k => if k = 0 then some (7, 1) else none, ringbuf := [(0, 1)],
    capacity := 2, ttl := 5, expire_started := false, oldest := 0 }

/-- Witness for C2_sweep at concrete inputs: the CAS-won do_expire at instant
3, a sweep that stops at a not-yet-passed record, and a sweep that exhausts
the ring. -/
theorem C2_witness :
    (sweepState.expire_started = false ∧ sweepState.oldest ≤ 3 ∧
      sweepState.doExpire 3 =
        { sweepState with
            ringbuf := (sweepLoop 3 sweepState.ringbuf sweepState.map
              sweepState.oldest).1,
            map := (sweepLoop 3 sweepState.ringbuf sweepState.map
              sweepState.oldest).2.1,
            oldest := (sweepLoop 3 sweepState.ringbuf sweepState.map
              sweepState.oldest).2.2,
            expire_started := false }) ∧
    ((∀ p ∈ [((0:Nat), (1:Nat))], p.2 < 3) ∧ (3:Nat) ≤ 4 ∧
      sweepLoop 3 ([(0, 1)] ++ (5, 4) :: [(6, 2)])
          (fun _ => (none : Option (Nat × Nat))) 9 =
        ([(6, 2)], removeKeys ([((0:Nat), (1:Nat))].map Prod.fst ++ [5])
          (fun _ => none), 4)) ∧
    ((∀ p ∈ [((0:Nat), (1:Nat)), (5, 2)], p.2 < 3) ∧
      sweepLoop 3 [(0, 1), (5, 2)] (fun _ => (none : Option (Nat × Nat))) 9 =
        ([], removeKeys ([((0:Nat), (1:Nat)), (5, 2)].map Prod.fst)
          (fun _ => none), 9)) :=
  ⟨⟨rfl, by decide, (C2_sweep 3).1 sweepState rfl (by decide)⟩,
   ⟨by decide, by decide,
    (C2_sweep 3).2.1 [(0, 1)] 5 4 [(6, 2)] (fun _ => none) 9
      (by decide) (by decide)⟩,
   ⟨by decide,
    (C2_sweep 3).2.2 [(0, 1), (5, 2)] (fun _ => none) 9 (by decide)⟩⟩

/-- Concrete state used by C4: key 0 present and already expired at instant
5, key 1 absent, hint 0 in the past so a sweep attempt would pop. -/
def probeState : Cache Nat Nat :=
  { map := fun k => if k = 0 then some (9, 0) else none, ringbuf := [(0, 0)],
    capacity := 3, ttl := 10, expire_started := false, oldest := 0 }

/-- C4: the claim fails on the code. get on the absent key 1 at instant 5
returns without attempting a sweep: the ring still holds the expired record
(0, 0). A sweep attempt at instant 5 would have passed the hint check, won
the flag and popped that record, as do_expire shows. -/
theorem C4_counterexample :
    (Cache.get probeState 1 5).2.ringbuf = [(0, 0)] ∧
    (Cache.doExpire probeState 5).ringbuf = [] := by
  decide

/-- C4 (amended): get on an absent key returns immediately with the state
untouched, attempting no sweep; get on a present key triggers the
opportunistic sweep attempt (its post-call state is exactly do_expire). -/
theorem C4_get_sweep (s : Cache K V) (k : K) (now : Nat) :
    (s.map k = none → s.get k now = (none, s)) ∧
    (∀ v t, s.map k = some (v, t) → (s.get k now).2 = s.doExpire now) := by
  constructor
  · intro h; simp [Cache.get, h]
  · intro v t h; simp [Cache.get, h]

/-- Witness for C4_get_sweep at probeState: both the absent branch (key 1)
and the present branch (key 0). -/
theorem C4_witness :
    (probeState.map 1 = none ∧ probeState.get 1 5 = (none, probeState)) ∧
    (probeState.map 0 = some (9, 0) ∧
      (probeState.get 0 5).2 = probeState.doExpire 5) :=
  ⟨⟨by decide, (C4_get_sweep probeState 1 5).1 (by decide)⟩,
   ⟨by decide, (C4_get_sweep probeState 0 5).2 9 0 (by decide)⟩⟩

/-- C5: when the ring is full, the eviction loop inside insert pops the front
record (k0, t0), removes k0 from the map, sets the hint to t0, and the
retried push then succeeds at the back of the ring: exactly one pop per
failed push, hence at most capacity iterations (one here, and 1 <= capacity),
and eviction is strictly by arrival order (the front is popped). -/
theorem C5_eviction (cap : Nat) (k k0 : K) (t t0 old : Nat)
    (rest : List (K × Nat)) (m : K → Option (V × Nat))
    (hcap : 0 < cap) (hfull : ((k0, t0) :: rest).length = cap) :
    evictLoop cap k t ((k0, t0) :: rest) m old =
      some (rest ++ [(k, t)], mapRemove m k0, t0) ∧ 1 ≤ cap := by
  constructor
  · simp only [evictLoop]
    simp only [List.length_cons] at hfull
    rw [if_neg (by omega)]
    exact evictLoop_push cap k t rest (mapRemove m k0) t0 (by omega)
  · omega

/-- Witness for C5_eviction: capacity 2, full ring [(0, 5), (1, 6)], pushing
(9, 8). -/
theorem C5_witness :
    (0:Nat) < 2 ∧ ([((0:Nat), (5:Nat)), (1, 6)].length = 2) ∧
    (evictLoop 2 9 8 [(0, 5), (1, 6)] (fun _ => (none : Option (Nat × Nat))) 3 =
      some ([(1, 6)] ++ [(9, 8)], mapRemove (fun _ => none) 0, 5) ∧ 1 ≤ 2) :=
  ⟨by decide, by decide,
   C5_eviction 2 9 0 8 5 3 [(1, 6)] (fun _ => none) (by decide) (by decide)⟩

/-- Running any sequence of operations from a state within the invariant
succeeds and keeps the ring length within the capacity. -/
lemma run_inv :
    ∀ (ops : List (Op K V)) (s : Cache K V), 0 < s.capacity →
      s.ringbuf.length ≤ s.capacity →
      ∃ s2, run s ops = some s2 ∧ s2.capacity = s.capacity ∧
        s2.ringbuf.length ≤ s2.capacity := by
  intro ops
  induction ops with
  | nil => intro s hcap hlen; exact ⟨s, rfl, rfl, hlen⟩
  | cons op ops ih =>
    intro s hcap hlen
    cases op with
    | ins k v now =>
      obtain ⟨s3, hs3, hc3, hl3⟩ := insert_inv s k v now hcap hlen
      obtain ⟨s2, hs2, hc2, hl2⟩ := ih s3 (hc3 ▸ hcap) hl3
      exact ⟨s2, by simp only [run, runOp, hs3, hs2], by rw [hc2, hc3], hl2⟩
    | lookup k now =>
      have hstep : ((s.get k now).2).capacity = s.capacity ∧
          ((s.get k now).2).ringbuf.length ≤ ((s.get k now).2).capacity := by
        rcases get_state_cases s k now with h | h
        · rw [h]; exact ⟨rfl, hlen⟩
        · rw [h]
          refine ⟨(doExpire_frame s now).1, ?_⟩
          rw [(doExpire_frame s now).1]
          exact le_trans (doExpire_frame s now).2.2 hlen
      obtain ⟨s2, hs2, hc2, hl2⟩ := ih ((s.get k now).2)
        (hstep.1 ▸ hcap) hstep.2
      exact ⟨s2, by simp only [run, runOp, hs2], by rw [hc2, hstep.1], hl2⟩
    | length =>
      obtain ⟨s2, hs2, hc2, hl2⟩ := ih s hcap hlen
      exact ⟨s2, by simp only [run, runOp, hs2], hc2, hl2⟩
    | getCapacity =>
      obtain ⟨s2, hs2, hc2, hl2⟩ := ih s hcap hlen
      exact ⟨s2, by simp only [run, runOp, hs2], hc2, hl2⟩

/-- C6: after any sequence of insert, get, len and capacity operations on a
cache constructed with positive capacity, the run succeeds and len() is at
most capacity(): the Arrival Ring never exceeds the configured capacity. -/
theorem C6_len_le_capacity (cap ttl t0 : Nat) (hcap : 0 < cap)
    (s0 : Cache K V) (h0 : Cache.new cap ttl t0 = some s0)
    (ops : List (Op K V)) :
    ∃ s2, run s0 ops = some s2 ∧ s2.capacity = cap ∧ s2.len ≤ cap := by
  have hne : ¬ cap = 0 := by omega
  simp only [Cache.new, hne, if_false, Option.some.injEq] at h0
  subst h0
  obtain ⟨s2, hs2, hc2, hl2⟩ := run_inv ops
    { map := fun _ => none, ringbuf := [], capacity := cap, ttl := ttl,
      expire_started := false, oldest := t0 } hcap (by simp)
  have h3 : s2.capacity = cap := hc2
  refine ⟨s2, hs2, h3, ?_⟩
  calc s2.len = s2.ringbuf.length := rfl
    _ ≤ s2.capacity := hl2
    _ = cap := h3

/-- Witness for C6_len_le_capacity: capacity 2, three inserts and a get. -/
theorem C6_witness :
    (0:Nat) < 2 ∧
    (Cache.new 2 7 0 : Option (Cache Nat Nat)) = some
      { map := fun _ => none, ringbuf := [], capacity := 2, ttl := 7,
        expire_started := false, oldest := 0 } ∧
    ∃ s2, run
      { map := fun _ => none, ringbuf := [], capacity := 2, ttl := 7,
        expire_started := false, oldest := 0 }
      [Op.ins 0 1 0, Op.ins 1 2 0, Op.ins 2 3 0, Op.lookup 0 0] = some s2 ∧
      s2.capacity = 2 ∧ s2.len ≤ 2 :=
  ⟨by decide, rfl,
   C6_len_le_capacity 2 7 0 (by decide) _ rfl
     [Op.ins 0 1 0, Op.ins 1 2 0, Op.ins 2 3 0, Op.lookup 0 0]⟩

/-- C7: with positive capacity, insert never reaches the panic branch of
ringbuf.pop().unwrap(): whenever a push fails because the ring is full, the
ring is nonempty, so the following pop returns a record and the whole insert
completes. -/
theorem C7_insert_total (s : Cache K V) (k : K) (v : V) (now : Nat)
    (hcap : 0 < s.capacity) : (s.insert k v now).isSome = true := by
  have hs := evictLoop_isSome s.capacity k (now + s.ttl) hcap s.ringbuf s.map s.oldest
  obtain ⟨r, hr⟩ := Option.isSome_iff_exists.mp hs
  simp [Cache.insert, hr]

/-- Witness for C7_insert_total: a full capacity-1 cache still inserts. -/
theorem C7_witness :
    (0:Nat) < 1 ∧
    (Cache.insert
      { map := fun k => if k = 0 then some (5, 9) else none,
        ringbuf := [(0, 9)], capacity := 1, ttl := 4,
        expire_started := false, oldest := 9 } 8 6 2).isSome = true :=
  ⟨by decide,
   C7_insert_total
     { map := fun k => if k = 0 then some (5, 9) else none,
       ringbuf := [(0, 9)], capacity := 1, ttl := 4,
       expire_started := false, oldest := 9 } 8 6 2 (by decide)⟩

/-- C8: for a key present in the store with payload v and instant t, get
returns a detached by-value snapshot: payload v, expire_at t, expired flag
now > t computed at read time; the accessors read those fields, writing
through the mutable accessor produces a new wrapper and does not touch the
cache state (the post-get state is exactly do_expire, independent of the
wrapper); and the instant any insert stamps into the store is its call
instant plus ttl (unless the entry is swept away in the same call). -/
theorem C8_snapshot (s : Cache K V) (k : K) (v : V) (t now : Nat) (x : V)
    (h : s.map k = some (v, t)) :
    (s.get k now).1 =
      some { value := v, expire_at := t, is_expired := decide (now > t) } ∧
    (s.get k now).2 = s.doExpire now ∧
    Value.get { value := v, expire_at := t, is_expired := decide (now > t) } = v ∧
    Value.expireAt { value := v, expire_at := t, is_expired := decide (now > t) } = t ∧
    (Value.isExpired { value := v, expire_at := t, is_expired := decide (now > t) }
      = true ↔ now > t) ∧
    Value.getMutSet { value := v, expire_at := t, is_expired := decide (now > t) } x
      = { value := x, expire_at := t, is_expired := decide (now > t) } ∧
    Value.intoInner
      (Value.getMutSet { value := v, expire_at := t, is_expired := decide (now > t) } x)
      = x ∧
    (∀ (s2 : Cache K V) (k2 : K) (v2 : V) (now2 : Nat) (s3 : Cache K V),
      s2.insert k2 v2 now2 = some s3 →
      s3.map k2 = some (v2, now2 + s2.ttl) ∨ s3.map k2 = none) := by
  refine ⟨by simp [Cache.get, h], by simp [Cache.get, h], rfl, rfl,
    by simp [Value.isExpired], rfl, rfl, ?_⟩
  intro s2 k2 v2 now2 s3 hins
  cases heq : evictLoop s2.capacity k2 (now2 + s2.ttl) s2.ringbuf s2.map s2.oldest with
  | none => simp [Cache.insert, heq] at hins
  | some r =>
    simp only [Cache.insert, heq, Option.some.injEq] at hins
    rcases doExpire_map_cases
      ({ s2 with ringbuf := r.1, map := mapInsert r.2.1 k2 v2 (now2 + s2.ttl),
                 oldest := r.2.2 } : Cache K V) now2 k2 with hc | hc
    · left
      rw [← hins, hc]
      simp [mapInsert]
    · right
      rw [← hins, hc]

/-- Witness for C8_snapshot at probeState: key 0 holds (9, 0), read at
instant 5, wrapper mutated to 4. -/
theorem C8_witness :
    probeState.map 0 = some (9, 0) ∧
    ((probeState.get 0 5).1 =
      some { value := 9, expire_at := 0, is_expired := decide ((5:Nat) > 0) } ∧
    (probeState.get 0 5).2 = probeState.doExpire 5 ∧
    Value.get { value := 9, expire_at := 0, is_expired := decide ((5:Nat) > 0) } = 9 ∧
    Value.expireAt { value := 9, expire_at := 0, is_expired := decide ((5:Nat) > 0) } = 0 ∧
    (Value.isExpired { value := 9, expire_at := 0, is_expired := decide ((5:Nat) > 0) }
      = true ↔ (5:Nat) > 0) ∧
    Value.getMutSet { value := 9, expire_at := 0, is_expired := decide ((5:Nat) > 0) } 4
      = { value := 4, expire_at := 0, is_expired := decide ((5:Nat) > 0) } ∧
    Value.intoInner
      (Value.getMutSet { value := 9, expire_at := 0, is_expired := decide ((5:Nat) > 0) } 4) = 4 ∧
    (∀ (s2 : Cache Nat Nat) (k2 v2 now2 : Nat) (s3 : Cache Nat Nat),
      s2.insert k2 v2 now2 = some s3 →
      s3.map k2 = some (v2, now2 + s2.ttl) ∨ s3.map k2 = none)) :=
  ⟨by decide, C8_snapshot probeState 0 9 0 5 4 (by decide)⟩

/-- C9: inserting a key that is already present pushes a second ring record
for it without retiring the old one (the ring holds duplicate records for
one key and len() counts the key twice), and a later pop of the older record
— here by capacity eviction on the next insert — removes the key's current,
newer value from the store, making get on that key absent. Stated on a
capacity-2 cache whose ring holds exactly the one old record for k, with
hints in the future so no sweep interferes. -/
theorem C9_duplicate (s : Cache K V) (k k3 : K) (v1 v2 v3 : V)
    (t1 now now2 now3 : Nat)
    (hring : s.ringbuf = [(k, t1)]) (hmap : s.map k = some (v1, t1))
    (hcap : s.capacity = 2) (hhint : now < s.oldest) (ht1 : now2 < t1)
    (hk : k3 ≠ k) :
    ∃ s2 s3, s.insert k v2 now = some s2 ∧
      s2.ringbuf = [(k, t1), (k, now + s.ttl)] ∧ s2.len = 2 ∧
      s2.map k = some (v2, now + s.ttl) ∧
      s2.insert k3 v3 now2 = some s3 ∧
      (s3.get k now3).1 = none := by
  obtain ⟨m, rb, cap, ttl, fl, old⟩ := s
  simp only at hring hmap hcap hhint ht1
  subst hring
  subst hcap
  have hkn : ¬ k = k3 := fun h => hk h.symm
  refine ⟨{ map := mapInsert m k v2 (now + ttl),
            ringbuf := [(k, t1), (k, now + ttl)], capacity := 2, ttl := ttl,
            expire_started := fl, oldest := old },
          { map := mapInsert (mapRemove (mapInsert m k v2 (now + ttl)) k) k3 v3
              (now2 + ttl),
            ringbuf := [(k, now + ttl), (k3, now2 + ttl)], capacity := 2,
            ttl := ttl, expire_started := fl, oldest := t1 },
          ?_, rfl, rfl, ?_, ?_, ?_⟩
  · simp only [Cache.insert, evictLoop]
    norm_num
    rw [doExpire_skip _ now hhint]
  · simp [mapInsert]
  · simp only [Cache.insert, evictLoop]
    norm_num
    rw [doExpire_skip _ now2 ht1]
  · simp [Cache.get, mapInsert, mapRemove, hkn]

/-- Concrete start state for the C9 witness: key 0 present with instant 100,
one ring record, capacity 2, hint 1000 in the future. -/
def dupState : Cache Nat Nat :=
  { map := fun k => if k = 0 then some (5, 100) else none,
    ringbuf := [(0, 100)], capacity := 2, ttl := 50,
    expire_started := false, oldest := 1000 }

/-- Witness for C9_duplicate: re-insert key 0 with value 6 at instant 0,
then insert key 1 at instant 0, then get key 0. -/
theorem C9_witness :
    dupState.ringbuf = [(0, 100)] ∧ dupState.map 0 = some (5, 100) ∧
    dupState.capacity = 2 ∧ (0:Nat) < dupState.oldest ∧ (0:Nat) < 100 ∧
    (1:Nat) ≠ 0 ∧
    ∃ s2 s3, dupState.insert 0 6 0 = some s2 ∧
      s2.ringbuf = [(0, 100), (0, 0 + dupState.ttl)] ∧ s2.len = 2 ∧
      s2.map 0 = some (6, 0 + dupState.ttl) ∧
      s2.insert 1 7 0 = some s3 ∧
      (s3.get 0 0).1 = none :=
  ⟨by decide, by decide, by decide, by decide, by decide, by decide,
   C9_duplicate dupState 0 1 5 6 7 100 0 0 0 rfl (by decide) rfl
     (by decide) (by decide) (by decide)⟩

/-- C10: constructing a cache with capacity 0 panics for every ttl (the
bounded ring cannot be built with zero capacity), and construction succeeds
for every positive capacity. -/
theorem C10_new_capacity (ttl t0 : Nat) :
    (Cache.new 0 ttl t0 : Option (Cache K V)) = none ∧
    ∀ cap : Nat, 0 < cap →
      ((Cache.new cap ttl t0 : Option (Cache K V)).isSome = true) := by
  constructor
  · simp [Cache.new]
  · intro cap hcap
    simp [Cache.new, Nat.pos_iff_ne_zero.mp hcap]

/-- Witness for C10_new_capacity at ttl 5, construction instant 0,
capacity 1. -/
theorem C10_witness :
    (Cache.new 0 5 0 : Option (Cache Nat Nat)) = none ∧
    ((0:Nat) < 1 ∧ (Cache.new 1 5 0 : Option (Cache Nat Nat)).isSome = true) :=
  ⟨(C10_new_capacity 5 0).1,
   by decide, (C10_new_capacity 5 0).2 1 (by decide)⟩

end Fastcache
